import Mathlib

/-!
A verification development for the content cache engine of the PDFoundry
repository: the `IDBHelper` key-value adapter and the `PDFCache` byte cache
with its access-time-based eviction (`prune`).

The embedding is a shallow one. An IndexedDB object store is an association
list from string keys to values; asynchronous operations become pure
functions threading an explicit state, with backend failures represented by
an explicit flag or `Except` result, and the current time passed as a
parameter. Timestamps are modelled as natural numbers: the source stores
`new Date().toISOString()` and reads it back with `Date.parse`, which is the
identity on the underlying millisecond value.
-/

namespace PDFoundry

/-- Errors surfaced by the storage helper. `keyExists` models the
`CacheError` thrown by `IDBHelper.set` when a non-forced write targets an
occupied key; `backend` models any IndexedDB transaction failure. -/
inductive CacheErr where
  | keyExists : CacheErr
  | backend : CacheErr
deriving DecidableEq, Repr

/-- An IndexedDB object store: an association list from keys to values,
in insertion order. -/
abbrev Store (α : Type) := List (String × α)

/-- Model of `IDBHelper.del`: delete the entry for `key` if present; deleting an
absent key is a no-op. -/
def idbDel (l : Store α) (k : String) : Store α :=
  l.filter fun p => p.1 ≠ k

/-- Model of `IDBHelper.get` as a fallible read: `err` marks a backend transaction
failure; otherwise the stored value is returned, `none` for an absent key
(IndexedDB resolves a get on a missing key with `undefined`). -/
def idbGetE (l : Store α) (k : String) (err : Bool) : Except CacheErr (Option α) :=
  if err then .error .backend else .ok (l.lookup k)

/-- Model of `IDBHelper.set`: look up the key first (`store.getKey`); if it exists
and `force` is set, delete-then-add; if it exists and `force` is not set,
fail with the key-exists error; otherwise add. -/
def idbSet (l : Store α) (k : String) (v : α) (force : Bool) :
    Except CacheErr (Store α) :=
  match l.lookup k with
  | some _ => if force then .ok (idbDel l k ++ [(k, v)]) else .error .keyExists
  | none => .ok (l ++ [(k, v)])

/-- The force path of `IDBHelper.set`, which never fails: delete-then-add
when the key exists, plain add otherwise. -/
def forceSet (l : Store α) (k : String) (v : α) : Store α :=
  match l.lookup k with
  | some _ => idbDel l k ++ [(k, v)]
  | none => l ++ [(k, v)]

/-- Model of `IDBHelper.keys`: all keys of the store. -/
def idbKeys (l : Store α) : List String :=
  l.map Prod.fst

/-- The `CacheMeta` record stored in the `Meta` partition: byte size and
last-accessed timestamp. -/
structure CacheMeta where
  size : Nat
  dateAccessed : Nat
deriving DecidableEq, Repr

/-- The two partitions owned by `PDFCache`: the `Cache` store of raw bytes
and the `Meta` store of `CacheMeta` records. -/
structure CacheState where
  cache : Store (List Nat)
  meta : Store CacheMeta
deriving DecidableEq, Repr

/-- Well-formedness maintained by every operation: within each partition no
two entries share a key (IndexedDB object stores are keyed). -/
def WF (s : CacheState) : Prop :=
  (s.cache.map Prod.fst).Nodup ∧ (s.meta.map Prod.fst).Nodup

instance : DecidablePred WF := fun s =>
  inferInstanceAs (Decidable (_ ∧ _))

namespace PDFCache

/-- Model of `PDFCache.MAX_BYTES`: the configured cache size (in mebibytes, from the
settings provider) times `2 ** 20`. -/
def MAX_BYTES (cacheSize : Nat) : Nat :=
  cacheSize * 2 ^ 20

/-- Model of `PDFCache.getMeta`: read the `Meta` record for `key`, returning `none`
on any failure (the source wraps the read in try/catch and returns null). -/
def getMeta (s : CacheState) (key : String) (err : Bool) : Option CacheMeta :=
  match idbGetE s.meta key err with
  | .error _ => none
  | .ok v => v

/-- Model of `PDFCache.setMeta`: force-write a `Meta` record. -/
def setMeta (s : CacheState) (key : String) (m : CacheMeta) : CacheState :=
  { s with meta := forceSet s.meta key m }

/-- Model of `PDFCache.getCache`: read the content bytes for `key`. On success,
force-write a fresh `Meta` record (`dateAccessed = now`,
`size = bytes.length`) and return the bytes. On a backend failure, or when
the key is absent (the source then evaluates `bytes.length` on `undefined`,
which throws before `setMeta` runs), the catch-all returns `none` and the
state is untouched. -/
def getCache (s : CacheState) (key : String) (now : Nat) (err : Bool) :
    Option (List Nat) × CacheState :=
  match idbGetE s.cache key err with
  | .error _ => (none, s)
  | .ok none => (none, s)
  | .ok (some bytes) =>
      (some bytes, setMeta s key { dateAccessed := now, size := bytes.length })

/-- The record list `prune` builds: iterate the listed `Meta` keys and fetch
each record (`Date.parse` / `parseInt` are the identity in this model). -/
def collectMetas (meta : Store CacheMeta) : List (String × CacheMeta) :=
  (idbKeys meta).filterMap fun k => (meta.lookup k).map fun m => (k, m)

/-- The comparator `(a, b) => a.meta.dateAccessed - b.meta.dateAccessed`:
ascending by last-accessed time. -/
def metaLE (a b : String × CacheMeta) : Prop :=
  a.2.dateAccessed ≤ b.2.dateAccessed

instance : DecidableRel metaLE := fun a b =>
  inferInstanceAs (Decidable (_ ≤ _))

/-- The sort in `prune`: a stable sort ascending by `dateAccessed`. -/
def sortMetas (metas : List (String × CacheMeta)) : List (String × CacheMeta) :=
  metas.insertionSort metaLE

/-- Total size in bytes over a record list. -/
def totalBytesOf (metas : List (String × CacheMeta)) : Nat :=
  (metas.map fun p => p.2.size).sum

/-- The eviction loop of `prune`: walk the sorted records; stop as soon as
the running total is strictly below the budget, otherwise delete the next
record from both partitions and subtract its size. -/
def pruneGo (budget : Nat) : List (String × CacheMeta) → Nat → CacheState → CacheState
  | [], _, s => s
  | (k, m) :: rest, total, s =>
      if total < budget then s
      else pruneGo budget rest (total - m.size)
        { cache := idbDel s.cache k, meta := idbDel s.meta k }

/-- Model of `PDFCache.prune`: list the `Meta` records, total their sizes, sort by
`dateAccessed` ascending, and delete from the front while the running total
is not strictly below `MAX_BYTES` (re-read from the configuration at this
call). -/
def prune (s : CacheState) (cacheSize : Nat) : CacheState :=
  pruneGo (MAX_BYTES cacheSize) (sortMetas (collectMetas s.meta))
    (totalBytesOf (collectMetas s.meta)) s

/-- Model of `PDFCache.setCache`: force-write the content entry, force-write the
`Meta` record (`size = bytes.length`, `dateAccessed = now`), then prune. -/
def setCache (s : CacheState) (key : String) (bytes : List Nat) (now cacheSize : Nat) :
    CacheState :=
  prune (setMeta { s with cache := forceSet s.cache key bytes } key
    { dateAccessed := now, size := bytes.length }) cacheSize

/-- Outcome of the byte-source fetch in `preload`: failure (a non-ok
response), or success with the fetched bytes. -/
inductive FetchResult where
  | fail : FetchResult
  | ok (bytes : List Nat) : FetchResult
deriving DecidableEq, Repr

/-- The fetch branch of `preload`: reject with the fetch error when the
response is not ok or the fetched bytes are empty, otherwise `setCache` and
succeed. The returned state records the side effects performed so far. -/
def preloadFetch (s : CacheState) (key : String) (now cacheSize : Nat) :
    FetchResult → Except String Unit × CacheState
  | .fail => (.error "Fetch failed.", s)
  | .ok bytes =>
      if 0 < bytes.length then (.ok (), setCache s key bytes now cacheSize)
      else (.error "Fetch failed.", s)

/-- Model of `PDFCache.preload`: if `getCache` returns non-null, non-empty bytes,
succeed without touching the byte source; otherwise fetch and either cache
the result or reject with the fetch error. -/
def preload (s : CacheState) (key : String) (now cacheSize : Nat) (fr : FetchResult) :
    Except String Unit × CacheState :=
  let r := getCache s key now false
  match r.1 with
  | some bs => if 0 < bs.length then (.ok (), r.2) else preloadFetch r.2 key now cacheSize fr
  | none => preloadFetch r.2 key now cacheSize fr

/-- A sequence of `setCache` calls, each a key, a byte sequence and a
timestamp, applied in order under one configured cache size. -/
def applySetCaches (s : CacheState) (cacheSize : Nat)
    (calls : List (String × List Nat × Nat)) : CacheState :=
  calls.foldl (fun st c => setCache st c.1 c.2.1 c.2.2 cacheSize) s

/-- The recency scenario: keys `a`, `b`, `c` written by `setCache` at times
1, 2, 3 under a budget too large to evict, then `a` read back at time 4. -/
def scenarioState (bsA bsB bsC : List Nat) : CacheState :=
  (getCache (setCache (setCache (setCache ⟨[], []⟩ "a" bsA 1 100) "b" bsB 2 100)
    "c" bsC 3 100) "a" 4 false).2

/-- A state whose single `Meta` record occupies exactly the one-mebibyte
budget. -/
def exactBudgetState : CacheState :=
  ⟨[("a", [0])], [("a", ⟨1048576, 0⟩)]⟩

instance : IsTotal (String × CacheMeta) metaLE :=
  ⟨fun a b => Nat.le_total a.2.dateAccessed b.2.dateAccessed⟩

instance : IsTrans (String × CacheMeta) metaLE :=
  ⟨fun _ _ _ => Nat.le_trans⟩

end PDFCache

end PDFoundry

deriving instance DecidableEq for Except

namespace PDFoundry

/-- Looking a key up fails exactly when the key is absent from the store's
key list. -/
theorem lookup_eq_none_iff (l : Store α) (k : String) :
    l.lookup k = none ↔ k ∉ l.map Prod.fst := by
  induction l with
  | nil => simp
  | cons p t ih =>
      obtain ⟨a, b⟩ := p
      by_cases hk : k = a
      · subst hk
        simp [List.lookup]
      · simp [List.lookup, beq_false_of_ne hk, hk, ih]

/-- Appending a binding for a previously absent key makes it the lookup
result. -/
theorem lookup_append_of_none (l : Store α) (k : String) (v : α)
    (h : l.lookup k = none) : (l ++ [(k, v)]).lookup k = some v := by
  induction l with
  | nil => simp [List.lookup]
  | cons p t ih =>
      obtain ⟨a, b⟩ := p
      by_cases hk : k = a
      · subst hk; simp [List.lookup] at h
      · simp only [List.lookup, beq_false_of_ne hk, List.cons_append] at h ⊢
        exact ih h

/-- Deleting a key removes every binding for it. -/
theorem lookup_idbDel_self (l : Store α) (k : String) :
    (idbDel l k).lookup k = none := by
  induction l with
  | nil => rfl
  | cons p t ih =>
      obtain ⟨a, b⟩ := p
      by_cases hk : a = k
      · simpa [idbDel, hk] using ih
      · simpa [idbDel, hk, List.lookup, beq_false_of_ne (Ne.symm hk)] using ih

/-- Deleting one key leaves lookups of any other key unchanged. -/
theorem lookup_idbDel_ne (l : Store α) (k k' : String) (h : k ≠ k') :
    (idbDel l k').lookup k = l.lookup k := by
  induction l with
  | nil => rfl
  | cons p t ih =>
      obtain ⟨a, b⟩ := p
      by_cases ha : a = k'
      · subst ha
        simp [idbDel, List.lookup, beq_false_of_ne h] at ih ⊢
        exact ih
      · by_cases hk : k = a
        · subst hk; simp [idbDel, ha, List.lookup]
        · simp [idbDel, ha, List.lookup, beq_false_of_ne hk] at ih ⊢
          exact ih

/-- A force-written binding is what a subsequent lookup of that key finds. -/
theorem lookup_forceSet_self (l : Store α) (k : String) (v : α) :
    (forceSet l k v).lookup k = some v := by
  unfold forceSet
  cases h : l.lookup k with
  | none => exact lookup_append_of_none l k v h
  | some w => exact lookup_append_of_none _ k v (lookup_idbDel_self l k)

/-- Deletion only shrinks a store, so distinct keys stay distinct. -/
theorem nodupKeys_idbDel (l : Store α) (k : String)
    (h : (l.map Prod.fst).Nodup) : ((idbDel l k).map Prod.fst).Nodup :=
  ((List.filter_sublist l).map Prod.fst).nodup h

/-- The deleted key no longer occurs among the remaining keys. -/
theorem not_mem_keys_idbDel (l : Store α) (k : String) :
    k ∉ (idbDel l k).map Prod.fst := by
  intro hmem
  obtain ⟨p, hp, hfst⟩ := List.mem_map.mp hmem
  have := List.of_mem_filter hp
  simp [hfst] at this

/-- A force write preserves distinctness of the store's keys. -/
theorem nodupKeys_forceSet (l : Store α) (k : String) (v : α)
    (h : (l.map Prod.fst).Nodup) : ((forceSet l k v).map Prod.fst).Nodup := by
  unfold forceSet
  cases hl : l.lookup k with
  | none =>
      have hk : k ∉ l.map Prod.fst := (lookup_eq_none_iff l k).mp hl
      simp only [List.map_append, List.map_cons, List.map_nil]
      rw [List.nodup_append]
      refine ⟨h, List.nodup_singleton k, ?_⟩
      intro a ha hb
      simp at hb
      exact hk (hb ▸ ha)
  | some w =>
      have h1 := nodupKeys_idbDel l k h
      have h2 := not_mem_keys_idbDel l k
      simp only [List.map_append, List.map_cons, List.map_nil]
      rw [List.nodup_append]
      refine ⟨h1, List.nodup_singleton k, ?_⟩
      intro a ha hb
      simp at hb
      exact h2 (hb ▸ ha)

/-- The eviction loop preserves key distinctness in both partitions. -/
theorem WF_pruneGo (budget : Nat) :
    ∀ (ms : List (String × CacheMeta)) (total : Nat) (s : CacheState),
      WF s → WF (PDFCache.pruneGo budget ms total s) := by
  intro ms
  induction ms with
  | nil => intro total s hs; exact hs
  | cons p rest ih =>
      intro total s hs
      obtain ⟨k, m⟩ := p
      unfold PDFCache.pruneGo
      by_cases hlt : total < budget
      · simpa [hlt] using hs
      · simp only [hlt, if_false]
        exact ih _ _ ⟨nodupKeys_idbDel _ _ hs.1, nodupKeys_idbDel _ _ hs.2⟩

/-- Lemma: `prune` preserves key distinctness in both partitions. -/
theorem WF_prune (s : CacheState) (cacheSize : Nat) (h : WF s) :
    WF (PDFCache.prune s cacheSize) :=
  WF_pruneGo _ _ _ _ h

/-- Lemma: `setCache` preserves key distinctness in both partitions. -/
theorem WF_setCache (s : CacheState) (key : String) (bytes : List Nat)
    (now cacheSize : Nat) (h : WF s) :
    WF (PDFCache.setCache s key bytes now cacheSize) :=
  WF_prune _ _ ⟨nodupKeys_forceSet _ _ _ h.1, nodupKeys_forceSet _ _ _ h.2⟩

/-- With distinct keys, listing the `Meta` keys and fetching each record
reconstructs the record list itself. -/
theorem collectMetas_eq_self :
    ∀ (l : Store CacheMeta), (l.map Prod.fst).Nodup → PDFCache.collectMetas l = l := by
  intro l
  induction l with
  | nil => intro _; rfl
  | cons p t ih =>
      intro h
      obtain ⟨k, m⟩ := p
      simp only [List.map_cons, List.nodup_cons] at h
      obtain ⟨hk, ht⟩ := h
      unfold PDFCache.collectMetas at ih ⊢
      simp only [idbKeys, List.map_cons, List.filterMap_cons]
      have hhead : (((k, m) :: t).lookup k) = some m := by simp [List.lookup]
      rw [hhead]
      have hcongr : ∀ k' ∈ t.map Prod.fst,
          ((((k, m) :: t).lookup k').map fun m' => ((k', m') : String × CacheMeta)) =
            ((t.lookup k').map fun m' => (k', m')) := by
        intro k' hk'
        have hne : k' ≠ k := fun he => hk (he ▸ hk')
        simp [List.lookup, beq_false_of_ne hne]
      rw [List.filterMap_congr hcongr]
      simp only [idbKeys] at ih
      rw [ih ht]
      rfl

/-- Deleting the head key of a permutation with distinct keys yields the
tail. -/
theorem idbDel_perm (l : Store α) (k : String) (v : α) (rest : Store α)
    (hperm : l.Perm ((k, v) :: rest)) (hk : k ∉ rest.map Prod.fst) :
    (idbDel l k).Perm rest := by
  have h1 : (idbDel l k).Perm (idbDel ((k, v) :: rest) k) := hperm.filter _
  have h2 : idbDel ((k, v) :: rest) k = rest := by
    unfold idbDel
    simp only [List.filter_cons]
    rw [if_neg (by simp)]
    refine List.filter_eq_self.mpr ?_
    intro a ha
    have : a.1 ≠ k := fun he => hk (he ▸ List.mem_map_of_mem Prod.fst ha)
    simpa using this
  exact h2 ▸ h1

/-- Permuted record lists have the same byte total. -/
theorem totalBytesOf_perm (l₁ l₂ : List (String × CacheMeta)) (h : l₁.Perm l₂) :
    PDFCache.totalBytesOf l₁ = PDFCache.totalBytesOf l₂ := by
  unfold PDFCache.totalBytesOf
  exact (h.map fun p => p.2.size).sum_eq

/-- The eviction loop does nothing when the total is already below the
budget. -/
theorem pruneGo_of_lt (budget total : Nat) (ms : List (String × CacheMeta))
    (s : CacheState) (h : total < budget) : PDFCache.pruneGo budget ms total s = s := by
  cases ms with
  | nil => rfl
  | cons p rest => obtain ⟨k, m⟩ := p; simp [PDFCache.pruneGo, h]

/-- Core budget invariant of the eviction loop: started with an accurate
total over a key-distinct permutation of the `Meta` partition, it ends
strictly below the budget or with `Meta` empty. -/
theorem pruneGo_budget (budget : Nat) :
    ∀ (ms : List (String × CacheMeta)) (total : Nat) (s : CacheState),
      s.meta.Perm ms → (ms.map Prod.fst).Nodup → total = PDFCache.totalBytesOf ms →
      PDFCache.totalBytesOf (PDFCache.pruneGo budget ms total s).meta < budget ∨
        (PDFCache.pruneGo budget ms total s).meta = [] := by
  intro ms
  induction ms with
  | nil =>
      intro total s hperm _ _
      right
      simpa [PDFCache.pruneGo] using hperm.eq_nil
  | cons p rest ih =>
      intro total s hperm hnd htot
      obtain ⟨k, m⟩ := p
      rw [List.map_cons] at hnd
      obtain ⟨hk, hnd'⟩ := List.nodup_cons.mp hnd
      unfold PDFCache.pruneGo
      by_cases hlt : total < budget
      · left
        simp only [hlt, if_true]
        rw [totalBytesOf_perm _ _ hperm, ← htot]
        exact hlt
      · simp only [hlt, if_false]
        have hperm' : (idbDel s.meta k).Perm rest := idbDel_perm _ _ _ _ hperm hk
        have htot' : total - m.size = PDFCache.totalBytesOf rest := by
          rw [htot]
          simp [PDFCache.totalBytesOf]
        exact ih (total - m.size) ⟨idbDel s.cache k, idbDel s.meta k⟩ hperm' hnd' htot'

/-- The eviction loop deletes exactly a prefix of the sorted record walk:
the surviving `Meta` records are a permutation of some suffix. -/
theorem pruneGo_evicts_front (budget : Nat) :
    ∀ (ms : List (String × CacheMeta)) (total : Nat) (s : CacheState),
      s.meta.Perm ms → (ms.map Prod.fst).Nodup →
      ∃ n, ((PDFCache.pruneGo budget ms total s).meta).Perm (ms.drop n) := by
  intro ms
  induction ms with
  | nil =>
      intro total s hperm _
      exact ⟨0, by simpa [PDFCache.pruneGo] using hperm⟩
  | cons p rest ih =>
      intro total s hperm hnd
      obtain ⟨k, m⟩ := p
      rw [List.map_cons] at hnd
      obtain ⟨hk, hnd'⟩ := List.nodup_cons.mp hnd
      unfold PDFCache.pruneGo
      by_cases hlt : total < budget
      · exact ⟨0, by simpa [hlt] using hperm⟩
      · simp only [hlt, if_false]
        have hperm' : (idbDel s.meta k).Perm rest := idbDel_perm _ _ _ _ hperm hk
        obtain ⟨n, hn⟩ := ih (total - m.size) ⟨idbDel s.cache k, idbDel s.meta k⟩ hperm' hnd'
        exact ⟨n + 1, by simpa using hn⟩

/-- The eviction loop only deletes content entries: bytes found afterwards
were present before. -/
theorem pruneGo_lookup_cache (budget : Nat) :
    ∀ (ms : List (String × CacheMeta)) (total : Nat) (s : CacheState)
      (k : String) (bs : List Nat),
      ((PDFCache.pruneGo budget ms total s).cache.lookup k = some bs) →
      s.cache.lookup k = some bs := by
  intro ms
  induction ms with
  | nil => intro total s k bs h; exact h
  | cons p rest ih =>
      intro total s k bs h
      obtain ⟨k', m⟩ := p
      unfold PDFCache.pruneGo at h
      by_cases hlt : total < budget
      · simpa [hlt] using h
      · simp only [hlt, if_false] at h
        have h2 := ih _ _ _ _ h
        by_cases hkk : k = k'
        · subst hkk
          rw [lookup_idbDel_self] at h2
          exact absurd h2 (by simp)
        · rwa [lookup_idbDel_ne _ _ _ hkk] at h2

/-- After `prune` on a key-distinct state, the tracked byte total is
strictly below the budget or the `Meta` partition is empty. -/
theorem prune_budget (s : CacheState) (cacheSize : Nat)
    (h : (s.meta.map Prod.fst).Nodup) :
    PDFCache.totalBytesOf (PDFCache.prune s cacheSize).meta < PDFCache.MAX_BYTES cacheSize ∨
      (PDFCache.prune s cacheSize).meta = [] := by
  unfold PDFCache.prune
  rw [collectMetas_eq_self s.meta h]
  have hperm : s.meta.Perm (PDFCache.sortMetas s.meta) :=
    (List.perm_insertionSort _ _).symm
  have hnd : ((PDFCache.sortMetas s.meta).map Prod.fst).Nodup :=
    ((List.perm_insertionSort PDFCache.metaLE s.meta).map Prod.fst).symm.nodup h
  have htot : PDFCache.totalBytesOf s.meta = PDFCache.totalBytesOf (PDFCache.sortMetas s.meta) :=
    totalBytesOf_perm _ _ hperm
  exact pruneGo_budget _ _ _ _ hperm hnd htot

/-- After `setCache` on a key-distinct state, the tracked byte total is at
most the budget. -/
theorem setCache_budget (s : CacheState) (key : String) (bytes : List Nat)
    (now cacheSize : Nat) (h : WF s) :
    PDFCache.totalBytesOf (PDFCache.setCache s key bytes now cacheSize).meta ≤
      PDFCache.MAX_BYTES cacheSize := by
  unfold PDFCache.setCache
  have h' : ((PDFCache.setMeta
      { s with cache := forceSet s.cache key bytes } key
      { size := bytes.length, dateAccessed := now }).meta.map Prod.fst).Nodup :=
    nodupKeys_forceSet _ _ _ h.2
  rcases prune_budget _ cacheSize h' with hlt | hempty
  · exact Nat.le_of_lt hlt
  · rw [hempty]; exact Nat.zero_le _

/-- Claim C9: the byte budget `prune` consumes is the configured value
multiplied by `2 ^ 20`, and it is recomputed from the configuration passed
at each `prune` call (not cached), so a configuration change takes effect on
the very next prune. -/
theorem claim_C9_budget (cacheSize : Nat) :
    PDFCache.MAX_BYTES cacheSize = cacheSize * 2 ^ 20 ∧
    ∀ s : CacheState, PDFCache.prune s cacheSize =
      PDFCache.pruneGo (PDFCache.MAX_BYTES cacheSize)
        (PDFCache.sortMetas (PDFCache.collectMetas s.meta))
        (PDFCache.totalBytesOf (PDFCache.collectMetas s.meta)) s :=
  ⟨rfl, fun _ => rfl⟩

/-- Claim C10: for a key absent from the content partition, `getCache`
returns `none` and leaves the whole state — in particular the `Meta`
partition — unchanged; no spurious `Meta` record is created. -/
theorem claim_C10_get_absent (s : CacheState) (key : String) (now : Nat)
    (h : s.cache.lookup key = none) :
    PDFCache.getCache s key now false = (none, s) := by
  simp [PDFCache.getCache, idbGetE, h]

/-- Witness for claim C10 at a concrete state holding an unrelated key. -/
theorem claim_C10_get_absent_witness :
    PDFCache.getCache ⟨[("other", [1])], [("other", ⟨1, 0⟩)]⟩ "k" 5 false =
      (none, ⟨[("other", [1])], [("other", ⟨1, 0⟩)]⟩) :=
  claim_C10_get_absent ⟨[("other", [1])], [("other", ⟨1, 0⟩)]⟩ "k" 5 (by decide)

/-- Claim C8: `getMeta` and `getCache` never propagate a failure: a backend
error and an absent key both yield `none` (with the state untouched for
`getCache`), so callers cannot distinguish the two. -/
theorem claim_C8_swallow (s : CacheState) (key : String) (now : Nat) :
    PDFCache.getMeta s key true = none ∧
    (s.meta.lookup key = none → PDFCache.getMeta s key false = none) ∧
    PDFCache.getCache s key now true = (none, s) ∧
    (s.cache.lookup key = none → PDFCache.getCache s key now false = (none, s)) := by
  refine ⟨rfl, ?_, rfl, ?_⟩ <;> intro h <;>
    simp [PDFCache.getMeta, PDFCache.getCache, idbGetE, h]

/-- Witness for claim C8 at the empty state, where both keys are absent. -/
theorem claim_C8_swallow_witness :
    PDFCache.getMeta ⟨[], []⟩ "k" true = none ∧
    PDFCache.getMeta ⟨[], []⟩ "k" false = none ∧
    PDFCache.getCache ⟨[], []⟩ "k" 3 true = (none, ⟨[], []⟩) ∧
    PDFCache.getCache ⟨[], []⟩ "k" 3 false = (none, ⟨[], []⟩) :=
  ⟨(claim_C8_swallow ⟨[], []⟩ "k" 3).1,
   (claim_C8_swallow ⟨[], []⟩ "k" 3).2.1 (by decide),
   (claim_C8_swallow ⟨[], []⟩ "k" 3).2.2.1,
   (claim_C8_swallow ⟨[], []⟩ "k" 3).2.2.2 (by decide)⟩

/-- Claim C4: `setCache` force-writes the content entry, force-writes the
`Meta` record with `size` the byte length and `dateAccessed` the current
time, then invokes `prune`; and a successful `getCache` returns the stored
bytes while force-writing a `Meta` record with `dateAccessed = now` and
`size` the returned byte length. -/
theorem claim_C4_set_get (s : CacheState) (key : String) (bytes bs : List Nat)
    (now cacheSize : Nat) (h : s.cache.lookup key = some bs) :
    PDFCache.setCache s key bytes now cacheSize =
      PDFCache.prune
        ⟨forceSet s.cache key bytes,
         forceSet s.meta key { size := bytes.length, dateAccessed := now }⟩ cacheSize ∧
    PDFCache.getCache s key now false =
      (some bs, ⟨s.cache, forceSet s.meta key { size := bs.length, dateAccessed := now }⟩) := by
  constructor
  · rfl
  · simp [PDFCache.getCache, PDFCache.setMeta, idbGetE, h]

/-- Witness for claim C4 at a concrete one-entry state. -/
theorem claim_C4_set_get_witness :
    PDFCache.setCache ⟨[("k", [7, 8])], [("k", ⟨2, 1⟩)]⟩ "k" [9] 5 1 =
      PDFCache.prune
        ⟨forceSet [("k", [7, 8])] "k" [9],
         forceSet [("k", ⟨2, 1⟩)] "k" { size := 1, dateAccessed := 5 }⟩ 1 ∧
    PDFCache.getCache ⟨[("k", [7, 8])], [("k", ⟨2, 1⟩)]⟩ "k" 5 false =
      (some [7, 8],
        ⟨[("k", [7, 8])], forceSet [("k", ⟨2, 1⟩)] "k" { size := 2, dateAccessed := 5 }⟩) :=
  claim_C4_set_get ⟨[("k", [7, 8])], [("k", ⟨2, 1⟩)]⟩ "k" [9] [7, 8] 5 1 (by decide)

/-- Claim C5: starting from a partition where the key is free, a first `set`
succeeds; a second `set` with `force` succeeds and the key then reads back
the new value, while a second `set` without `force` fails with the
key-exists error and the stored value remains the first one. -/
theorem claim_C5_force_overwrite (part : Store α) (k : String) (v1 v2 : α)
    (h : part.lookup k = none) :
    ∃ p1, idbSet part k v1 false = .ok p1 ∧
      idbSet p1 k v2 true = .ok (forceSet p1 k v2) ∧
      (forceSet p1 k v2).lookup k = some v2 ∧
      idbSet p1 k v2 false = .error .keyExists ∧
      p1.lookup k = some v1 := by
  refine ⟨part ++ [(k, v1)], ?_, ?_, ?_, ?_, ?_⟩
  · simp [idbSet, h]
  · have h1 : (part ++ [(k, v1)]).lookup k = some v1 := lookup_append_of_none _ _ _ h
    simp [idbSet, forceSet, h1]
  · exact lookup_forceSet_self _ _ _
  · have h1 : (part ++ [(k, v1)]).lookup k = some v1 := lookup_append_of_none _ _ _ h
    simp [idbSet, h1]
  · exact lookup_append_of_none _ _ _ h

/-- Witness for claim C5 on a concrete partition and values. -/
theorem claim_C5_force_overwrite_witness :
    ∃ p1, idbSet ([] : Store Nat) "k" 1 false = .ok p1 ∧
      idbSet p1 "k" 2 true = .ok (forceSet p1 "k" 2) ∧
      (forceSet p1 "k" 2).lookup "k" = some 2 ∧
      idbSet p1 "k" 2 false = .error .keyExists ∧
      p1.lookup "k" = some 1 :=
  claim_C5_force_overwrite [] "k" 1 2 (by decide)

/-- Claim C1: after any `prune`, the sum of sizes over the remaining `Meta`
records is at most the budget or no records remain; consequently, after any
nonempty sequence of completed `setCache` calls the tracked total is at or
below the budget. -/
theorem claim_C1_budget_convergence (s : CacheState) (cacheSize : Nat) (h : WF s) :
    (PDFCache.totalBytesOf (PDFCache.prune s cacheSize).meta ≤
        PDFCache.MAX_BYTES cacheSize ∨
      (PDFCache.prune s cacheSize).meta = []) ∧
    ∀ calls : List (String × List Nat × Nat), calls ≠ [] →
      PDFCache.totalBytesOf (PDFCache.applySetCaches s cacheSize calls).meta ≤
        PDFCache.MAX_BYTES cacheSize := by
  constructor
  · rcases prune_budget s cacheSize h.2 with hlt | hempty
    · exact Or.inl (Nat.le_of_lt hlt)
    · exact Or.inr hempty
  · intro calls
    induction calls generalizing s with
    | nil => intro hne; exact absurd rfl hne
    | cons c rest ih =>
        intro _
        cases rest with
        | nil =>
            simpa [PDFCache.applySetCaches] using
              setCache_budget s c.1 c.2.1 c.2.2 cacheSize h
        | cons c' rest' =>
            have hwf := WF_setCache s c.1 c.2.1 c.2.2 cacheSize h
            simpa [PDFCache.applySetCaches] using
              ih (PDFCache.setCache s c.1 c.2.1 c.2.2 cacheSize) hwf (by simp)

/-- Witness for claim C1 at a concrete one-record state, with one concrete
`setCache` sequence. -/
theorem claim_C1_budget_convergence_witness :
    (PDFCache.totalBytesOf
        (PDFCache.prune ⟨[("a", [0])], [("a", ⟨7, 0⟩)]⟩ 1).meta ≤
        PDFCache.MAX_BYTES 1 ∨
      (PDFCache.prune ⟨[("a", [0])], [("a", ⟨7, 0⟩)]⟩ 1).meta = []) ∧
    PDFCache.totalBytesOf
        (PDFCache.applySetCaches ⟨[("a", [0])], [("a", ⟨7, 0⟩)]⟩ 1
          [("b", [1, 2], 5)]).meta ≤ PDFCache.MAX_BYTES 1 :=
  ⟨(claim_C1_budget_convergence ⟨[("a", [0])], [("a", ⟨7, 0⟩)]⟩ 1 (by decide)).1,
   (claim_C1_budget_convergence ⟨[("a", [0])], [("a", ⟨7, 0⟩)]⟩ 1 (by decide)).2
     [("b", [1, 2], 5)] (by simp)⟩

/-- Counterexample to claim C2 as stated: a state whose `Meta` total equals
the budget exactly. The claim says such a state is within budget and prune
deletes nothing, but the loop guard `totalBytes < MAX_BYTES` makes prune
delete the record (the content entry with it). -/
theorem claim_C2_counterexample :
    PDFCache.totalBytesOf PDFCache.exactBudgetState.meta ≤ PDFCache.MAX_BYTES 1 ∧
    PDFCache.exactBudgetState.meta ≠ [] ∧
    (PDFCache.prune PDFCache.exactBudgetState 1).meta = [] ∧
    (PDFCache.prune PDFCache.exactBudgetState 1).cache = [] := by
  decide

/-- Claim C2 as amended: `prune` deletes entries only while the running
total is at or above the budget; when the total is strictly below the
budget it deletes nothing, and during a pass it stops as soon as the
running total drops strictly below the budget. -/
theorem claim_C2_no_delete_below_budget (s : CacheState) (cacheSize : Nat)
    (hnd : (s.meta.map Prod.fst).Nodup)
    (hlt : PDFCache.totalBytesOf s.meta < PDFCache.MAX_BYTES cacheSize) :
    PDFCache.prune s cacheSize = s ∧
    ∀ (budget total : Nat) (ms : List (String × CacheMeta)) (s' : CacheState),
      total < budget → PDFCache.pruneGo budget ms total s' = s' := by
  constructor
  · unfold PDFCache.prune
    rw [collectMetas_eq_self s.meta hnd]
    exact pruneGo_of_lt _ _ _ _ hlt
  · intro budget total ms s' hl
    exact pruneGo_of_lt _ _ _ _ hl

/-- Witness for the amended claim C2 at a concrete state strictly below the
budget. -/
theorem claim_C2_no_delete_below_budget_witness :
    PDFCache.prune ⟨[("a", [0])], [("a", ⟨5, 0⟩)]⟩ 1 = ⟨[("a", [0])], [("a", ⟨5, 0⟩)]⟩ ∧
    PDFCache.pruneGo 9 [("a", ⟨5, 0⟩)] 3 ⟨[], []⟩ = ⟨[], []⟩ :=
  ⟨(claim_C2_no_delete_below_budget ⟨[("a", [0])], [("a", ⟨5, 0⟩)]⟩ 1
      (by decide) (by decide)).1,
   (claim_C2_no_delete_below_budget ⟨[("a", [0])], [("a", ⟨5, 0⟩)]⟩ 1
      (by decide) (by decide)).2 9 3 [("a", ⟨5, 0⟩)] ⟨[], []⟩ (by decide)⟩

/-- Claim C6: when the cache cannot satisfy `preload` (miss or cached empty
bytes), a failed fetch and a successful zero-byte fetch both make `preload`
reject with the fetch error, and in the zero-byte case `setCache` is not
invoked: the state stays exactly as `getCache` left it. -/
theorem claim_C6_fetch_error (s : CacheState) (key : String) (now cacheSize : Nat)
    (h : (PDFCache.getCache s key now false).1 = none ∨
      (PDFCache.getCache s key now false).1 = some []) :
    PDFCache.preload s key now cacheSize .fail =
      (.error "Fetch failed.", (PDFCache.getCache s key now false).2) ∧
    PDFCache.preload s key now cacheSize (.ok []) =
      (.error "Fetch failed.", (PDFCache.getCache s key now false).2) := by
  rcases h with h | h <;>
    simp [PDFCache.preload, PDFCache.preloadFetch, h]

/-- Witness for claim C6 at the empty state (a cache miss). -/
theorem claim_C6_fetch_error_witness :
    PDFCache.preload ⟨[], []⟩ "k" 3 1 .fail =
      (.error "Fetch failed.", (PDFCache.getCache ⟨[], []⟩ "k" 3 false).2) ∧
    PDFCache.preload ⟨[], []⟩ "k" 3 1 (.ok []) =
      (.error "Fetch failed.", (PDFCache.getCache ⟨[], []⟩ "k" 3 false).2) :=
  claim_C6_fetch_error ⟨[], []⟩ "k" 3 1 (Or.inl (by decide))

/-- Evaluation of `getCache` without backend failure, case-split on presence of the key. -/
theorem getCache_eq (s : CacheState) (key : String) (now : Nat) :
    PDFCache.getCache s key now false =
      match s.cache.lookup key with
      | none => (none, s)
      | some bytes =>
          (some bytes, PDFCache.setMeta s key { size := bytes.length, dateAccessed := now }) := by
  cases hl : s.cache.lookup key <;> simp [PDFCache.getCache, idbGetE, hl]

/-- Bytes read back for a key right after `setCache` wrote bytes there are
those bytes: the force write ends with the fresh binding and the eviction
loop only deletes. -/
theorem setCache_lookup_inv (s : CacheState) (key : String)
    (bytes bs : List Nat) (now cacheSize : Nat)
    (h : (PDFCache.setCache s key bytes now cacheSize).cache.lookup key = some bs) :
    bs = bytes := by
  unfold PDFCache.setCache PDFCache.prune at h
  have h2 := pruneGo_lookup_cache _ _ _ _ _ _ h
  simp only [PDFCache.setMeta] at h2
  rw [lookup_forceSet_self] at h2
  exact (Option.some_injective _ h2).symm

/-- When the fetch branch of `preload` succeeds, the bytes now cached for
the key are the (nonempty) fetched bytes. -/
theorem preloadFetch_ok_nonempty (s' s1 : CacheState) (key : String)
    (now cacheSize : Nat) (fr : PDFCache.FetchResult) (bs : List Nat)
    (h0 : PDFCache.preloadFetch s' key now cacheSize fr = (.ok (), s1))
    (h1 : s1.cache.lookup key = some bs) : bs ≠ [] := by
  cases fr with
  | fail => simp [PDFCache.preloadFetch] at h0
  | ok bytes =>
      by_cases hb : 0 < bytes.length
      · simp only [PDFCache.preloadFetch, hb, if_true, Prod.mk.injEq, true_and] at h0
        rw [← h0] at h1
        have hbv := setCache_lookup_inv s' key bytes bs now cacheSize h1
        subst hbv
        intro he
        rw [he] at hb
        simp at hb
      · simp [PDFCache.preloadFetch, hb] at h0

/-- After a successful `preload` left bytes for the key in the content
partition, those bytes are nonempty. -/
theorem preload_ok_nonempty (s s1 : CacheState) (key : String)
    (now cacheSize : Nat) (fr : PDFCache.FetchResult) (bs : List Nat)
    (h0 : PDFCache.preload s key now cacheSize fr = (.ok (), s1))
    (h1 : s1.cache.lookup key = some bs) : bs ≠ [] := by
  cases hl : s.cache.lookup key with
  | some bs0 =>
      simp only [PDFCache.preload, getCache_eq, hl] at h0
      by_cases hlen : 0 < bs0.length
      · simp only [hlen, if_true, Prod.mk.injEq, true_and] at h0
        rw [← h0] at h1
        simp only [PDFCache.setMeta] at h1
        rw [hl] at h1
        have : bs = bs0 := Option.some_injective _ h1.symm
        subst this
        intro he
        rw [he] at hlen
        simp at hlen
      · simp only [hlen, if_false] at h0
        exact preloadFetch_ok_nonempty _ _ _ _ _ _ _ h0 h1
  | none =>
      simp only [PDFCache.preload, getCache_eq, hl] at h0
      exact preloadFetch_ok_nonempty _ _ _ _ _ _ _ h0 h1

/-- Claim C7: `preload` is idempotent. If a first `preload` succeeded and
the key's bytes are still cached (no eviction intervened), a second
`preload` succeeds for every fetch outcome — in particular for a failing
byte source, so the source is not consulted again — and the cached bytes
for the key are the same after both calls. -/
theorem claim_C7_idempotent_preload (s s1 : CacheState) (key : String)
    (now0 now cacheSize : Nat) (fr0 : PDFCache.FetchResult) (bs : List Nat)
    (h0 : PDFCache.preload s key now0 cacheSize fr0 = (.ok (), s1))
    (h1 : s1.cache.lookup key = some bs) :
    ∀ fr : PDFCache.FetchResult,
      PDFCache.preload s1 key now cacheSize fr =
        (.ok (), (PDFCache.getCache s1 key now false).2) ∧
      (PDFCache.getCache s1 key now false).2.cache = s1.cache ∧
      (PDFCache.getCache s1 key now false).2.cache.lookup key = some bs := by
  intro fr
  have hne : bs ≠ [] := preload_ok_nonempty s s1 key now0 cacheSize fr0 bs h0 h1
  have hlen : 0 < bs.length := List.length_pos.mpr hne
  refine ⟨?_, ?_, ?_⟩
  · simp [PDFCache.preload, getCache_eq, h1, hlen]
  · rw [getCache_eq, h1]; rfl
  · rw [getCache_eq, h1]
    exact h1

/-- Step-by-step evaluation of the recency scenario, ending in the state
just before the final prune. -/
theorem scenarioState_eq (bsA bsB bsC : List Nat)
    (hA : bsA.length = 400000) (hB : bsB.length = 400000) (hC : bsC.length = 400000) :
    PDFCache.scenarioState bsA bsB bsC =
      ⟨[("a", bsA), ("b", bsB), ("c", bsC)],
       [("b", ⟨400000, 2⟩), ("c", ⟨400000, 3⟩), ("a", ⟨400000, 4⟩)]⟩ := by
  have e1 : PDFCache.setCache ⟨[], []⟩ "a" bsA 1 100 =
      ⟨[("a", bsA)], [("a", ⟨400000, 1⟩)]⟩ := by
    unfold PDFCache.setCache
    rw [hA]
    have hpre : PDFCache.setMeta
        { (⟨[], []⟩ : CacheState) with cache := forceSet (⟨[], []⟩ : CacheState).cache "a" bsA }
        "a" ⟨400000, 1⟩ = ⟨[("a", bsA)], [("a", ⟨400000, 1⟩)]⟩ := rfl
    rw [hpre]
    unfold PDFCache.prune
    show PDFCache.pruneGo (PDFCache.MAX_BYTES 100)
      (PDFCache.sortMetas (PDFCache.collectMetas [("a", ⟨400000, 1⟩)]))
      (PDFCache.totalBytesOf (PDFCache.collectMetas [("a", ⟨400000, 1⟩)]))
      ⟨[("a", bsA)], [("a", ⟨400000, 1⟩)]⟩ = ⟨[("a", bsA)], [("a", ⟨400000, 1⟩)]⟩
    rw [show PDFCache.totalBytesOf (PDFCache.collectMetas [("a", ⟨400000, 1⟩)]) = 400000
      from by decide]
    exact pruneGo_of_lt _ _ _ _ (by decide)
  have e2 : PDFCache.setCache ⟨[("a", bsA)], [("a", ⟨400000, 1⟩)]⟩ "b" bsB 2 100 =
      ⟨[("a", bsA), ("b", bsB)], [("a", ⟨400000, 1⟩), ("b", ⟨400000, 2⟩)]⟩ := by
    unfold PDFCache.setCache
    rw [hB]
    have hpre : PDFCache.setMeta
        { (⟨[("a", bsA)], [("a", ⟨400000, 1⟩)]⟩ : CacheState) with
          cache := forceSet (⟨[("a", bsA)], [("a", ⟨400000, 1⟩)]⟩ : CacheState).cache "b" bsB }
        "b" ⟨400000, 2⟩ =
        ⟨[("a", bsA), ("b", bsB)], [("a", ⟨400000, 1⟩), ("b", ⟨400000, 2⟩)]⟩ := rfl
    rw [hpre]
    unfold PDFCache.prune
    show PDFCache.pruneGo (PDFCache.MAX_BYTES 100)
      (PDFCache.sortMetas (PDFCache.collectMetas [("a", ⟨400000, 1⟩), ("b", ⟨400000, 2⟩)]))
      (PDFCache.totalBytesOf (PDFCache.collectMetas [("a", ⟨400000, 1⟩), ("b", ⟨400000, 2⟩)]))
      ⟨[("a", bsA), ("b", bsB)], [("a", ⟨400000, 1⟩), ("b", ⟨400000, 2⟩)]⟩ =
      ⟨[("a", bsA), ("b", bsB)], [("a", ⟨400000, 1⟩), ("b", ⟨400000, 2⟩)]⟩
    rw [show PDFCache.totalBytesOf
        (PDFCache.collectMetas [("a", ⟨400000, 1⟩), ("b", ⟨400000, 2⟩)]) = 800000
      from by decide]
    exact pruneGo_of_lt _ _ _ _ (by decide)
  have e3 : PDFCache.setCache ⟨[("a", bsA), ("b", bsB)],
      [("a", ⟨400000, 1⟩), ("b", ⟨400000, 2⟩)]⟩ "c" bsC 3 100 =
      ⟨[("a", bsA), ("b", bsB), ("c", bsC)],
       [("a", ⟨400000, 1⟩), ("b", ⟨400000, 2⟩), ("c", ⟨400000, 3⟩)]⟩ := by
    unfold PDFCache.setCache
    rw [hC]
    have hpre : PDFCache.setMeta
        { (⟨[("a", bsA), ("b", bsB)],
            [("a", ⟨400000, 1⟩), ("b", ⟨400000, 2⟩)]⟩ : CacheState) with
          cache := forceSet (⟨[("a", bsA), ("b", bsB)],
            [("a", ⟨400000, 1⟩), ("b", ⟨400000, 2⟩)]⟩ : CacheState).cache "c" bsC }
        "c" ⟨400000, 3⟩ =
        ⟨[("a", bsA), ("b", bsB), ("c", bsC)],
         [("a", ⟨400000, 1⟩), ("b", ⟨400000, 2⟩), ("c", ⟨400000, 3⟩)]⟩ := rfl
    rw [hpre]
    unfold PDFCache.prune
    show PDFCache.pruneGo (PDFCache.MAX_BYTES 100)
      (PDFCache.sortMetas (PDFCache.collectMetas
        [("a", ⟨400000, 1⟩), ("b", ⟨400000, 2⟩), ("c", ⟨400000, 3⟩)]))
      (PDFCache.totalBytesOf (PDFCache.collectMetas
        [("a", ⟨400000, 1⟩), ("b", ⟨400000, 2⟩), ("c", ⟨400000, 3⟩)]))
      ⟨[("a", bsA), ("b", bsB), ("c", bsC)],
       [("a", ⟨400000, 1⟩), ("b", ⟨400000, 2⟩), ("c", ⟨400000, 3⟩)]⟩ =
      ⟨[("a", bsA), ("b", bsB), ("c", bsC)],
       [("a", ⟨400000, 1⟩), ("b", ⟨400000, 2⟩), ("c", ⟨400000, 3⟩)]⟩
    rw [show PDFCache.totalBytesOf (PDFCache.collectMetas
        [("a", ⟨400000, 1⟩), ("b", ⟨400000, 2⟩), ("c", ⟨400000, 3⟩)]) = 1200000
      from by decide]
    exact pruneGo_of_lt _ _ _ _ (by decide)
  have e4 : PDFCache.getCache ⟨[("a", bsA), ("b", bsB), ("c", bsC)],
      [("a", ⟨400000, 1⟩), ("b", ⟨400000, 2⟩), ("c", ⟨400000, 3⟩)]⟩ "a" 4 false =
      (some bsA,
        ⟨[("a", bsA), ("b", bsB), ("c", bsC)],
         [("b", ⟨400000, 2⟩), ("c", ⟨400000, 3⟩), ("a", ⟨400000, 4⟩)]⟩) := by
    have estep : PDFCache.getCache ⟨[("a", bsA), ("b", bsB), ("c", bsC)],
        [("a", ⟨400000, 1⟩), ("b", ⟨400000, 2⟩), ("c", ⟨400000, 3⟩)]⟩ "a" 4 false =
        (some bsA, PDFCache.setMeta
          ⟨[("a", bsA), ("b", bsB), ("c", bsC)],
           [("a", ⟨400000, 1⟩), ("b", ⟨400000, 2⟩), ("c", ⟨400000, 3⟩)]⟩
          "a" ⟨bsA.length, 4⟩) := rfl
    rw [estep, hA]
    rfl
  unfold PDFCache.scenarioState
  rw [e1, e2, e3, e4]

/-- The final prune of the recency scenario: one mebibyte of budget forces
exactly one eviction, and it is `b`, the least recently accessed key. -/
theorem scenario_prune_eq (bsA bsB bsC : List Nat) :
    PDFCache.prune
      ⟨[("a", bsA), ("b", bsB), ("c", bsC)],
       [("b", ⟨400000, 2⟩), ("c", ⟨400000, 3⟩), ("a", ⟨400000, 4⟩)]⟩ 1 =
      ⟨[("a", bsA), ("c", bsC)],
       [("c", ⟨400000, 3⟩), ("a", ⟨400000, 4⟩)]⟩ := by
  unfold PDFCache.prune
  show PDFCache.pruneGo (PDFCache.MAX_BYTES 1)
    (PDFCache.sortMetas (PDFCache.collectMetas
      [("b", ⟨400000, 2⟩), ("c", ⟨400000, 3⟩), ("a", ⟨400000, 4⟩)]))
    (PDFCache.totalBytesOf (PDFCache.collectMetas
      [("b", ⟨400000, 2⟩), ("c", ⟨400000, 3⟩), ("a", ⟨400000, 4⟩)]))
    ⟨[("a", bsA), ("b", bsB), ("c", bsC)],
     [("b", ⟨400000, 2⟩), ("c", ⟨400000, 3⟩), ("a", ⟨400000, 4⟩)]⟩ =
    ⟨[("a", bsA), ("c", bsC)], [("c", ⟨400000, 3⟩), ("a", ⟨400000, 4⟩)]⟩
  rw [show PDFCache.sortMetas (PDFCache.collectMetas
      [("b", ⟨400000, 2⟩), ("c", ⟨400000, 3⟩), ("a", ⟨400000, 4⟩)]) =
      [("b", ⟨400000, 2⟩), ("c", ⟨400000, 3⟩), ("a", ⟨400000, 4⟩)] from by decide]
  rw [show PDFCache.totalBytesOf (PDFCache.collectMetas
      [("b", ⟨400000, 2⟩), ("c", ⟨400000, 3⟩), ("a", ⟨400000, 4⟩)]) = 1200000 from by decide]
  unfold PDFCache.pruneGo
  rw [if_neg (by decide : ¬(1200000 < PDFCache.MAX_BYTES 1))]
  have hdelc : idbDel [("a", bsA), ("b", bsB), ("c", bsC)] "b" = [("a", bsA), ("c", bsC)] := by
    unfold idbDel
    simp
  have hdelm : idbDel [("b", (⟨400000, 2⟩ : CacheMeta)), ("c", ⟨400000, 3⟩), ("a", ⟨400000, 4⟩)]
      "b" = [("c", ⟨400000, 3⟩), ("a", ⟨400000, 4⟩)] := by decide
  show PDFCache.pruneGo (PDFCache.MAX_BYTES 1) [("c", ⟨400000, 3⟩), ("a", ⟨400000, 4⟩)]
    (1200000 - 400000)
    ⟨idbDel [("a", bsA), ("b", bsB), ("c", bsC)] "b",
     idbDel [("b", ⟨400000, 2⟩), ("c", ⟨400000, 3⟩), ("a", ⟨400000, 4⟩)] "b"⟩ =
    ⟨[("a", bsA), ("c", bsC)], [("c", ⟨400000, 3⟩), ("a", ⟨400000, 4⟩)]⟩
  rw [hdelc, hdelm]
  unfold PDFCache.pruneGo
  rw [if_pos (by decide : (1200000 - 400000 : Nat) < PDFCache.MAX_BYTES 1)]

/-- Claim C3: eviction is least-recently-accessed first. `prune` walks the
`Meta` records in ascending `lastAccessed` order and deletes a prefix of
that order; in the concrete scenario — `a`, `b`, `c` written in that order,
then `a` read — a prune that must evict exactly one entry evicts `b`,
leaving `a` and `c` in both partitions. -/
theorem claim_C3_recency (s : CacheState) (cacheSize : Nat) (bsA bsB bsC : List Nat)
    (hnd : (s.meta.map Prod.fst).Nodup)
    (hA : bsA.length = 400000) (hB : bsB.length = 400000) (hC : bsC.length = 400000) :
    (List.Sorted PDFCache.metaLE (PDFCache.sortMetas s.meta) ∧
      ∃ n, ((PDFCache.prune s cacheSize).meta).Perm
        ((PDFCache.sortMetas s.meta).drop n)) ∧
    (PDFCache.prune (PDFCache.scenarioState bsA bsB bsC) 1).meta.map Prod.fst =
      ["c", "a"] ∧
    (PDFCache.prune (PDFCache.scenarioState bsA bsB bsC) 1).cache.map Prod.fst =
      ["a", "c"] := by
  refine ⟨⟨?_, ?_⟩, ?_, ?_⟩
  · unfold PDFCache.sortMetas
    exact List.sorted_insertionSort PDFCache.metaLE s.meta
  · unfold PDFCache.prune
    rw [collectMetas_eq_self s.meta hnd]
    exact pruneGo_evicts_front _ _ _ _
      (List.perm_insertionSort PDFCache.metaLE s.meta).symm
      (((List.perm_insertionSort PDFCache.metaLE s.meta).map Prod.fst).symm.nodup hnd)
  · rw [scenarioState_eq bsA bsB bsC hA hB hC, scenario_prune_eq]
    rfl
  · rw [scenarioState_eq bsA bsB bsC hA hB hC, scenario_prune_eq]
    rfl

/-- Witness for claim C3: a concrete two-record state for the order facts,
and 400000-byte replicated arrays for the scenario. -/
theorem claim_C3_recency_witness :
    (List.Sorted PDFCache.metaLE
        (PDFCache.sortMetas [("x", ⟨3, 5⟩), ("y", ⟨2, 1⟩)]) ∧
      ∃ n, ((PDFCache.prune ⟨[], [("x", ⟨3, 5⟩), ("y", ⟨2, 1⟩)]⟩ 0).meta).Perm
        ((PDFCache.sortMetas [("x", ⟨3, 5⟩), ("y", ⟨2, 1⟩)]).drop n)) ∧
    (PDFCache.prune (PDFCache.scenarioState (List.replicate 400000 0)
        (List.replicate 400000 1) (List.replicate 400000 2)) 1).meta.map Prod.fst =
      ["c", "a"] ∧
    (PDFCache.prune (PDFCache.scenarioState (List.replicate 400000 0)
        (List.replicate 400000 1) (List.replicate 400000 2)) 1).cache.map Prod.fst =
      ["a", "c"] :=
  claim_C3_recency ⟨[], [("x", ⟨3, 5⟩), ("y", ⟨2, 1⟩)]⟩ 0
    (List.replicate 400000 0) (List.replicate 400000 1) (List.replicate 400000 2)
    (by decide) (List.length_replicate 400000 0) (List.length_replicate 400000 1)
    (List.length_replicate 400000 2)

/-- Witness for claim C7: after a first `preload` on the empty cache fetched
one byte, the second `preload` succeeds even though the byte source fails. -/
theorem claim_C7_idempotent_preload_witness :
    PDFCache.preload ⟨[("k", [1])], [("k", ⟨1, 0⟩)]⟩ "k" 4 1 .fail =
      (.ok (), (PDFCache.getCache ⟨[("k", [1])], [("k", ⟨1, 0⟩)]⟩ "k" 4 false).2) ∧
    (PDFCache.getCache ⟨[("k", [1])], [("k", ⟨1, 0⟩)]⟩ "k" 4 false).2.cache =
      (⟨[("k", [1])], [("k", ⟨1, 0⟩)]⟩ : CacheState).cache ∧
    (PDFCache.getCache ⟨[("k", [1])], [("k", ⟨1, 0⟩)]⟩ "k" 4 false).2.cache.lookup "k" =
      some [1] :=
  claim_C7_idempotent_preload ⟨[], []⟩ ⟨[("k", [1])], [("k", ⟨1, 0⟩)]⟩ "k" 0 4 1
    (.ok [1]) [1] (by decide) (by decide) .fail

end PDFoundry
